import Mathlib

set_option maxHeartbeats 1000000

/-!
Verification of the manifest-import pipeline in `hack/import-assets/providers.go`.

The Go functions are embedded shallowly: Kubernetes unstructured objects become
the `Obj` structure (kind, name, annotation list, plus the typed fields the
pipeline reads per kind), Go maps become association lists with overwrite
semantics, Go `strings.Split` / `strings.Contains` / `strings.ReplaceAll` /
`bytes.TrimRight` become the character-list functions below, and Go panics
become `Except` errors.
-/

namespace ImportAssets

/-- A manifest object as the pipeline sees it: kind, metadata name, the
annotation map, and the kind-dependent typed fields read by the pipeline
(a Certificate's `spec.secretName`, the webhook/conversion client-config
service name of a CRD or webhook configuration, and a Deployment's container
image references). -/
structure Obj where
  kind : String
  name : String
  anns : List (String × String)
  secretName : String := ""
  serviceName : String := ""
  images : List String := []
  deriving DecidableEq

/-- Association-list model of a Go `map[string]string`: lookup. -/
def alLookup : List (String × String) → String → Option String
  | [], _ => none
  | (k, v) :: rest, j => if k == j then some v else alLookup rest j

/-- Association-list model of a Go map assignment `m[k] = v` (overwrite). -/
def alInsert : List (String × String) → String → String → List (String × String)
  | [], k, v => [(k, v)]
  | (k1, v1) :: rest, k, v =>
    if k1 == k then (k, v) :: rest else (k1, v1) :: alInsert rest k v

/-- Association-list model of Go `delete(m, k)`: the key is absent afterwards. -/
def alErase (m : List (String × String)) (k : String) : List (String × String) :=
  m.filter (fun p => !(p.1 == k))

/-- Accumulator-based splitter underlying `splitOnChar`. -/
def splitOnCharAux (c : Char) : List Char → List Char → List (List Char)
  | [], acc => [acc.reverse]
  | x :: xs, acc =>
    if x == c then acc.reverse :: splitOnCharAux c xs []
    else splitOnCharAux c xs (x :: acc)

/-- Go `strings.Split(s, sep)` for a one-character separator: the list of
(possibly empty) segments of `s` between occurrences of `c`. -/
def splitOnChar (s : String) (c : Char) : List String :=
  (splitOnCharAux c s.data []).map String.mk

/-- Does `pat` occur as a contiguous subsequence of `hay`?  (Go
`strings.Contains` over the underlying bytes/characters.) -/
def containsSeq : List Char → List Char → Bool
  | [], pat => pat.isEmpty
  | c :: rest, pat => pat.isPrefixOf (c :: rest) || containsSeq rest pat

/-- Go `strings.Contains(s, pat)`. -/
def strContains (s pat : String) : Bool :=
  containsSeq s.data pat.data

/-- Fuel-indexed body of Go `strings.ReplaceAll`: replaces non-overlapping
occurrences of `pat` left to right.  The fuel only makes the recursion
structural; `s.length + 1` fuel is always enough. -/
def replaceAllSeq (pat rep : List Char) : Nat → List Char → List Char
  | 0, l => l
  | _ + 1, [] => []
  | fuel + 1, c :: rest =>
    if !pat.isEmpty && pat.isPrefixOf (c :: rest) then
      rep ++ replaceAllSeq pat rep fuel (List.drop (pat.length - 1) rest)
    else
      c :: replaceAllSeq pat rep fuel rest

/-- Go `strings.ReplaceAll(s, pat, rep)` (for the non-empty patterns this
program uses). -/
def replaceAll (s pat rep : String) : String :=
  String.mk (replaceAllSeq pat.data rep.data (s.data.length + 1) s.data)

/-- Go `strings.ToLower(s)` (character-wise, as for the ASCII names this
program handles). -/
def strToLower (s : String) : String :=
  String.mk (s.data.map Char.toLower)

/-- `(p *provider) providerTypeName`: the provider type, lowercased, with the
substring "provider" removed. -/
def providerTypeName (ptype : String) : String :=
  replaceAll (strToLower ptype) "provider" ""

/-- `(p *provider) imageToKey`: derive the catalog key for a container image
reference. -/
def imageToKey (ptype pname fullImage : String) : String :=
  let frag := splitOnChar fullImage '/'
  let nameVer := frag.getLastD ""
  let name := (splitOnChar nameVer ':').headD ""
  if name == "kube-rbac-proxy" then "kube-rbac-proxy"
  else if name == "ip-address-manager" then
    providerTypeName ptype ++ "-" ++ pname ++ ":" ++ name
  else
    providerTypeName ptype ++ "-" ++ pname ++ ":manager"

/-- The "bare component name" of an image reference: the trailing path
segment after the last "/", with everything from the first ":" on stripped. -/
def bareImageName (fullImage : String) : String :=
  (splitOnChar ((splitOnChar fullImage '/').getLastD "") ':').headD ""

/-- `bytes.TrimRight(b, "\n")`: drop all trailing newline (10) bytes. -/
def trimRightNewline (b : List Nat) : List Nat :=
  (b.reverse.dropWhile (fun x => x == 10)).reverse

/-- `ensureNewLine`: trim all trailing newlines, then append exactly one. -/
def ensureNewLine (b : List Nat) : List Nat :=
  trimRightNewline b ++ [10]

/-- The ways the resolver can die: the out-of-range index panic in
`strings.Split(certNN, "/")[1]`, or the designed
`panic("can't find secret from cert " + certNN)`. -/
inductive ResolveErr where
  | indexOutOfRange (certNN : String)
  | cantFindSecret (certNN : String)
  deriving DecidableEq

/-- The closure `secretFromCertNN` inside `findWebhookServiceSecretName`:
take segment 1 of the "/"-split of the annotation value (a Go slice access
that panics when no "/" is present), look it up in the certificate→secret
map, and reject missing or empty secret names. -/
def secretFromCertNN (certSecretNames : List (String × String)) (certNN : String) :
    Except ResolveErr String :=
  match (splitOnChar certNN '/')[1]? with
  | none => .error (.indexOutOfRange certNN)
  | some certName =>
    match alLookup certSecretNames certName with
    | none => .error (.cantFindSecret certNN)
    | some secretName =>
      if secretName == "" then .error (.cantFindSecret certNN)
      else .ok secretName

/-- Pass 1 of `findWebhookServiceSecretName`: record
`certSecretNames[cert.Name] = cert.Spec.SecretName` for every Certificate. -/
def buildCertSecretNames (objs : List Obj) : List (String × String) :=
  objs.foldl (fun m o => if o.kind == "Certificate" then alInsert m o.name o.secretName else m) []

/-- The three kinds scanned for the injection annotation. -/
def isInjectTargetKind (k : String) : Bool :=
  k == "CustomResourceDefinition" || k == "MutatingWebhookConfiguration" ||
    k == "ValidatingWebhookConfiguration"

/-- Pass 2 of `findWebhookServiceSecretName`: for every CRD / webhook
configuration carrying the injection annotation, resolve its secret (dying on
failure) and record it under the object's referenced service name. -/
def resolvePass2 (certSecretNames : List (String × String))
    (m : List (String × String)) : List Obj → Except ResolveErr (List (String × String))
  | [] => .ok m
  | o :: rest =>
    if isInjectTargetKind o.kind then
      match alLookup o.anns "cert-manager.io/inject-ca-from" with
      | none => resolvePass2 certSecretNames m rest
      | some certNN =>
        match secretFromCertNN certSecretNames certNN with
        | .error e => .error e
        | .ok secretName =>
          resolvePass2 certSecretNames (alInsert m o.serviceName secretName) rest
    else
      resolvePass2 certSecretNames m rest

/-- `findWebhookServiceSecretName`: build the certificate→secret map, then
resolve every injection annotation to a service→secret map. -/
def findWebhookServiceSecretName (objs : List Obj) :
    Except ResolveErr (List (String × String)) :=
  resolvePass2 (buildCertSecretNames objs) [] objs

/-- The kinds dropped outright by `certManagerToServiceCA`. -/
def isDropKind (k : String) : Bool :=
  k == "Certificate" || k == "Issuer" || k == "Namespace"

/-- The per-object switch body of `certManagerToServiceCA`: `none` means the
object is skipped, `some o` means `o` is appended to the output. -/
def rewriteObj (serviceSecretNames : List (String × String)) (obj : Obj) : Option Obj :=
  if isInjectTargetKind obj.kind then
    match alLookup obj.anns "cert-manager.io/inject-ca-from" with
    | some _ =>
      let anns1 := alErase (alInsert obj.anns "service.beta.openshift.io/inject-cabundle" "true")
        "cert-manager.io/inject-ca-from"
      some { obj with anns := anns1 }
    | none => some obj
  else if obj.kind == "Service" then
    match alLookup serviceSecretNames obj.name with
    | some secretName =>
      let anns1 := alInsert obj.anns "service.beta.openshift.io/serving-cert-secret-name" secretName
      some { obj with anns := anns1 }
    | none => some obj
  else if isDropKind obj.kind then
    none
  else
    some obj

/-- The annotation mutation of the CRD/webhook branch: add the cabundle
annotation with value "true" and delete the cert-manager injection key. -/
def injectSwap (anns : List (String × String)) : List (String × String) :=
  alErase (alInsert anns "service.beta.openshift.io/inject-cabundle" "true")
    "cert-manager.io/inject-ca-from"

/-- The annotation mutation of the Service branch: add the serving-cert
secret-name annotation. -/
def addServingSecret (anns : List (String × String)) (s : String) : List (String × String) :=
  alInsert anns "service.beta.openshift.io/serving-cert-secret-name" s

/-- `certManagerToServiceCA`: resolve the service→secret map (which may die),
then rewrite each object through the kind switch. -/
def certManagerToServiceCA (objs : List Obj) : Except ResolveErr (List Obj) :=
  match findWebhookServiceSecretName objs with
  | .error e => .error e
  | .ok serviceSecretNames => .ok (objs.filterMap (rewriteObj serviceSecretNames))

/-- The five RBAC kinds split out by `splitRBACOut`. -/
def isRBACKind (k : String) : Bool :=
  k == "ClusterRole" || k == "Role" || k == "ClusterRoleBinding" ||
    k == "RoleBinding" || k == "ServiceAccount"

/-- `splitRBACOut`: partition the stream into (core, rbac), applying
`setOpenShiftAnnotations(obj, false)` (the external collaborator `setOS`) to
each RBAC object. -/
def splitRBACOut (setOS : Obj → Bool → Obj) : List Obj → List Obj × List Obj
  | [] => ([], [])
  | obj :: rest =>
    if isRBACKind obj.kind then
      ((splitRBACOut setOS rest).1, setOS obj false :: (splitRBACOut setOS rest).2)
    else
      (obj :: (splitRBACOut setOS rest).1, (splitRBACOut setOS rest).2)

/-- The retention predicate of `filterOutIPAM`: keep CRDs, and keep anything
whose lowercased name does not contain "ipam". -/
def keepIPAM (o : Obj) : Bool :=
  o.kind == "CustomResourceDefinition" || !(strContains (strToLower o.name) "ipam")

/-- `filterOutIPAM`. -/
def filterOutIPAM (objs : List Obj) : List Obj :=
  objs.filter keepIPAM

/-- `(p *provider) updateImages`, with the file I/O stripped to its
read-modify-write value: fold every Deployment container image into the
prior catalog under its derived key. -/
def updateImages (ptype pname : String) (prior : List (String × String))
    (objs : List Obj) : List (String × String) :=
  objs.foldl
    (fun m o =>
      if o.kind == "Deployment" then
        o.images.foldl (fun m1 img => alInsert m1 (imageToKey ptype pname img) img) m
      else m)
    prior

/-- The (key, image) pairs contributed by one run, in iteration order. -/
def runImages (ptype pname : String) : List Obj → List (String × String)
  | [] => []
  | o :: rest =>
    (if o.kind == "Deployment" then o.images.map (fun img => (imageToKey ptype pname img, img)) else [])
      ++ runImages ptype pname rest

/-- The transformation steps of `importProviders` between loading a
provider's objects and writing files: the CA rewrite, the RBAC split, and
(for metal3 only) the IPAM filter.  Returns (core stream, rbac stream). -/
def pipelineCore (setOS : Obj → Bool → Obj) (pname : String) (objs : List Obj) :
    Except ResolveErr (List Obj × List Obj) :=
  match certManagerToServiceCA objs with
  | .error e => .error e
  | .ok rewritten =>
    .ok (if pname == "metal3" then filterOutIPAM (splitRBACOut setOS rewritten).1
         else (splitRBACOut setOS rewritten).1,
         (splitRBACOut setOS rewritten).2)

/-- Where the composed pipeline routes an input object. -/
inductive Route where
  | core
  | rbac
  | dropped
  deriving DecidableEq

/-- The routing function induced by the pipeline: Certificate/Issuer/Namespace
objects are dropped by the rewrite; RBAC kinds go to the rbac stream; for
metal3, non-CRD objects with "ipam" in their lowercased name are dropped by
the component filter; everything else stays in the core stream. -/
def route (pname : String) (o : Obj) : Route :=
  if isDropKind o.kind then .dropped
  else if isRBACKind o.kind then .rbac
  else if pname == "metal3" && !(keepIPAM o) then .dropped
  else .core

/-- The image of a surviving object in the core stream. -/
def coreTransform (serviceSecretNames : List (String × String)) (o : Obj) : Obj :=
  match rewriteObj serviceSecretNames o with
  | some o1 => o1
  | none => o

/-! ### Association-list lemmas -/

theorem alLookup_alInsert (m : List (String × String)) (k v j : String) :
    alLookup (alInsert m k v) j = if k = j then some v else alLookup m j := by
  induction m with
  | nil => simp [alInsert, alLookup]
  | cons p rest ih =>
    obtain ⟨k1, v1⟩ := p
    simp only [alInsert, beq_iff_eq]
    by_cases h1 : k1 = k
    · subst h1
      simp only [if_pos rfl, alLookup, beq_iff_eq]
      by_cases h2 : k1 = j <;> simp [h2]
    · simp only [if_neg h1, alLookup, beq_iff_eq, ih]
      by_cases h2 : k1 = j
      · subst h2
        have hkj : ¬(k = k1) := fun h => h1 h.symm
        simp [hkj]
      · simp [h2]

theorem alLookup_alErase (m : List (String × String)) (k j : String) :
    alLookup (alErase m k) j = if k = j then none else alLookup m j := by
  induction m with
  | nil => simp [alErase, alLookup]
  | cons p rest ih =>
    obtain ⟨k1, v1⟩ := p
    simp only [alErase, List.filter_cons] at ih ⊢
    by_cases h1 : k1 = k
    · subst h1
      simp only [beq_self_eq_true, Bool.not_true, if_neg (Bool.false_ne_true), ih]
      by_cases h2 : k1 = j
      · simp [h2]
      · simp [h2, alLookup]
    · have hb : (!(k1 == k)) = true := by simp [h1]
      simp only [hb, if_pos rfl, alLookup, beq_iff_eq, ih]
      by_cases h2 : k1 = j
      · subst h2
        have hkj : ¬(k = k1) := fun h => h1 h.symm
        simp [hkj]
      · simp [h2]

theorem alLookup_append (l1 l2 : List (String × String)) (j : String) :
    alLookup (l1 ++ l2) j = (alLookup l1 j).or (alLookup l2 j) := by
  induction l1 with
  | nil => simp [alLookup, Option.or]
  | cons p rest ih =>
    obtain ⟨k, v⟩ := p
    by_cases h : k = j
    · subst h
      simp [alLookup, Option.or]
    · simp [alLookup, h, ih]

theorem alLookup_foldl_alInsert (l : List (String × String))
    (m : List (String × String)) (j : String) :
    alLookup (l.foldl (fun m1 p => alInsert m1 p.1 p.2) m) j
      = (alLookup l.reverse j).or (alLookup m j) := by
  induction l generalizing m with
  | nil => simp [alLookup, Option.or]
  | cons p rest ih =>
    obtain ⟨k, v⟩ := p
    simp only [List.foldl_cons, ih, List.reverse_cons, alLookup_append]
    rw [alLookup_alInsert]
    by_cases h : k = j
    · subst h
      cases alLookup rest.reverse k <;> simp [alLookup, Option.or]
    · cases alLookup rest.reverse j <;> simp [alLookup, Option.or, h]

/-! ### Split / contains lemmas -/

theorem splitOnCharAux_ne_nil (c : Char) (l acc : List Char) :
    splitOnCharAux c l acc ≠ [] := by
  induction l generalizing acc with
  | nil => simp [splitOnCharAux]
  | cons x xs ih =>
    by_cases h : x = c
    · subst h
      simp [splitOnCharAux]
    · simp only [splitOnCharAux, beq_iff_eq, if_neg h]
      exact ih _

theorem splitOnCharAux_no_sep (c : Char) (l acc : List Char) (h : c ∉ l) :
    splitOnCharAux c l acc = [acc.reverse ++ l] := by
  induction l generalizing acc with
  | nil => simp [splitOnCharAux]
  | cons x xs ih =>
    have hx : ¬(x = c) := fun hx => h (hx ▸ List.mem_cons_self x xs)
    have hxs : c ∉ xs := fun hm => h (List.mem_cons_of_mem x hm)
    simp only [splitOnCharAux, beq_iff_eq, if_neg hx, ih _ hxs, List.reverse_cons]
    simp

theorem splitOnCharAux_sep_cons (c : Char) (l1 l2 acc : List Char) (h : c ∉ l1) :
    splitOnCharAux c (l1 ++ c :: l2) acc
      = (acc.reverse ++ l1) :: splitOnCharAux c l2 [] := by
  induction l1 generalizing acc with
  | nil => simp [splitOnCharAux]
  | cons x xs ih =>
    have hx : ¬(x = c) := fun hx => h (hx ▸ List.mem_cons_self x xs)
    have hxs : c ∉ xs := fun hm => h (List.mem_cons_of_mem x hm)
    simp only [List.cons_append, splitOnCharAux, beq_iff_eq, if_neg hx, List.append_eq]
    rw [ih (x :: acc) hxs]
    simp

theorem splitOnCharAux_length_of_mem (c : Char) (l acc : List Char) (h : c ∈ l) :
    2 ≤ (splitOnCharAux c l acc).length := by
  induction l generalizing acc with
  | nil => cases h
  | cons x xs ih =>
    by_cases hx : x = c
    · subst hx
      simp only [splitOnCharAux, beq_self_eq_true, if_pos, List.length_cons]
      have := splitOnCharAux_ne_nil x xs ([] : List Char)
      have h1 : 1 ≤ (splitOnCharAux x xs ([] : List Char)).length :=
        Nat.one_le_iff_ne_zero.mpr (fun h0 => this (List.length_eq_zero.mp h0))
      omega
    · have hxs : c ∈ xs := by
        rcases List.mem_cons.mp h with h1 | h1
        · exact absurd h1.symm hx
        · exact h1
      simp only [splitOnCharAux, beq_iff_eq, if_neg hx]
      exact ih _ hxs

theorem splitOnChar_no_sep (s : String) (c : Char) (h : c ∉ s.data) :
    splitOnChar s c = [s] := by
  simp only [splitOnChar, splitOnCharAux_no_sep c s.data [] h]
  simp only [List.reverse_nil, List.nil_append, List.map_cons, List.map_nil]

theorem splitOnChar_append (ns cn : String) (h : ('/' : Char) ∉ ns.data) :
    splitOnChar (ns ++ "/" ++ cn) '/' = ns :: splitOnChar cn '/' := by
  have hdata : (ns ++ "/" ++ cn).data = ns.data ++ '/' :: cn.data := by
    simp [String.data_append]
  simp only [splitOnChar, hdata, splitOnCharAux_sep_cons '/' ns.data cn.data [] h]
  simp only [List.reverse_nil, List.nil_append, List.map_cons]

/-! ### Trailing-newline lemmas (C9) -/

theorem trimRightNewline_eq_rdropWhile (b : List Nat) :
    trimRightNewline b = List.rdropWhile (fun x => x == 10) b := rfl

theorem trimRightNewline_append_newlines (b : List Nat) :
    ∃ k, b = trimRightNewline b ++ List.replicate k 10 := by
  refine ⟨(b.reverse.takeWhile (fun x => x == 10)).length, ?_⟩
  have hsplit : b.reverse.takeWhile (fun x => x == 10) ++ b.reverse.dropWhile (fun x => x == 10)
      = b.reverse := List.takeWhile_append_dropWhile _ _
  have hrep : b.reverse.takeWhile (fun x => x == 10)
      = List.replicate (b.reverse.takeWhile (fun x => x == 10)).length 10 := by
    apply List.eq_replicate_of_mem
    intro x hx
    have := List.mem_takeWhile_imp hx
    simpa using this
  calc b = b.reverse.reverse := (List.reverse_reverse b).symm
    _ = (b.reverse.takeWhile (fun x => x == 10) ++ b.reverse.dropWhile (fun x => x == 10)).reverse := by
        rw [hsplit]
    _ = trimRightNewline b ++ (b.reverse.takeWhile (fun x => x == 10)).reverse := by
        rw [List.reverse_append]; rfl
    _ = trimRightNewline b ++ List.replicate (b.reverse.takeWhile (fun x => x == 10)).length 10 := by
        rw [hrep, List.reverse_replicate, List.length_replicate]

theorem trimRightNewline_getLast_ne (b : List Nat) (x : Nat)
    (h : (trimRightNewline b).getLast? = some x) : x ≠ 10 := by
  have hne : trimRightNewline b ≠ [] := by
    intro h0
    rw [h0] at h
    cases h
  rw [trimRightNewline_eq_rdropWhile] at h hne
  have hlast := List.rdropWhile_last_not (fun x => x == 10) b hne
  rw [List.getLast?_eq_getLast _ hne] at h
  have hx : x = (List.rdropWhile (fun x => x == 10) b).getLast hne := by
    exact (Option.some.injEq _ _).mp h.symm
  intro h10
  apply hlast
  simp [← hx, h10]

theorem trimRightNewline_ensureNewLine (b : List Nat) :
    trimRightNewline (trimRightNewline b ++ [10]) = trimRightNewline b := by
  simp only [trimRightNewline_eq_rdropWhile]
  rw [List.rdropWhile_concat_pos _ _ 10 (by simp)]
  exact List.rdropWhile_idempotent _ _

/-- C9: `ensureNewLine` appends exactly one trailing newline: the input is its
trimmed prefix plus some run of trailing newlines, the output is that prefix
plus exactly one newline (so the prefix is preserved and does not end in a
newline), and the function is idempotent. -/
theorem ensureNewLine_claim (b : List Nat) :
    (∃ k, b = trimRightNewline b ++ List.replicate k 10) ∧
    ensureNewLine b = trimRightNewline b ++ [10] ∧
    (∀ x, (trimRightNewline b).getLast? = some x → x ≠ 10) ∧
    ensureNewLine (ensureNewLine b) = ensureNewLine b := by
  refine ⟨trimRightNewline_append_newlines b, rfl, trimRightNewline_getLast_ne b, ?_⟩
  show trimRightNewline (trimRightNewline b ++ [10]) ++ [10] = trimRightNewline b ++ [10]
  rw [trimRightNewline_ensureNewLine]

/-- Witness for C9 at the concrete byte string [97, 10]. -/
theorem ensureNewLine_claim_witness :
    (97 : Nat) ≠ 10 ∧ ensureNewLine (ensureNewLine [97, 10]) = ensureNewLine [97, 10] :=
  ⟨(ensureNewLine_claim [97, 10]).2.2.1 97 (by decide), (ensureNewLine_claim [97, 10]).2.2.2⟩

/-! ### Resolver lemmas (C2, C8, C10) -/

theorem secretFromCertNN_no_slash (cs : List (String × String)) (v : String)
    (h : ('/' : Char) ∉ v.data) :
    secretFromCertNN cs v = .error (.indexOutOfRange v) := by
  simp [secretFromCertNN, splitOnChar_no_sep v '/' h, List.get?]

theorem secretFromCertNN_slash_no_panic (cs : List (String × String)) (v : String)
    (h : ('/' : Char) ∈ v.data) :
    secretFromCertNN cs v ≠ .error (.indexOutOfRange v) := by
  have hlen : 2 ≤ (splitOnChar v '/').length := by
    simpa [splitOnChar] using splitOnCharAux_length_of_mem '/' v.data [] h
  have hget : (splitOnChar v '/')[1]? ≠ none := by
    rw [Ne, List.getElem?_eq_none_iff]
    omega
  cases hg : (splitOnChar v '/')[1]? with
  | none => exact absurd hg hget
  | some certName =>
    simp only [secretFromCertNN, hg]
    cases alLookup cs certName with
    | none => simp
    | some s =>
      by_cases hs : s == ""
      · simp [hs]
      · simp [hs]

theorem resolvePass2_not_ok (cs : List (String × String)) (o : Obj) (v : String)
    (hk : isInjectTargetKind o.kind = true)
    (ha : alLookup o.anns "cert-manager.io/inject-ca-from" = some v)
    (he : ∃ e, secretFromCertNN cs v = .error e) :
    ∀ (l : List Obj), o ∈ l → ∀ (acc m : List (String × String)),
      resolvePass2 cs acc l ≠ .ok m := by
  intro l
  induction l with
  | nil => intro hmem; cases hmem
  | cons x rest ih =>
    intro hmem acc m
    rcases List.mem_cons.mp hmem with hxo | hrest
    · subst hxo
      obtain ⟨e, he1⟩ := he
      simp [resolvePass2, hk, ha, he1]
    · by_cases hxk : isInjectTargetKind x.kind = true
      · cases hxa : alLookup x.anns "cert-manager.io/inject-ca-from" with
        | none => simpa [resolvePass2, hxk, hxa] using ih hrest acc m
        | some certNN =>
          cases hxs : secretFromCertNN cs certNN with
          | error e => simp [resolvePass2, hxk, hxa, hxs]
          | ok s =>
            simpa [resolvePass2, hxk, hxa, hxs] using
              ih hrest (alInsert acc x.serviceName s) m
      · have hxk1 : isInjectTargetKind x.kind = false := Bool.not_eq_true _ ▸ by
          simpa using hxk
        simpa [resolvePass2, hxk1] using ih hrest acc m

theorem resolvePass2_ok (cs : List (String × String)) :
    ∀ (l : List Obj),
      (∀ o ∈ l, isInjectTargetKind o.kind = true →
        ∀ v, alLookup o.anns "cert-manager.io/inject-ca-from" = some v →
          ∃ s, secretFromCertNN cs v = .ok s) →
      ∀ acc, ∃ m, resolvePass2 cs acc l = .ok m := by
  intro l
  induction l with
  | nil => exact fun _ acc => ⟨acc, rfl⟩
  | cons x rest ih =>
    intro hall acc
    have hrest : ∀ o ∈ rest, isInjectTargetKind o.kind = true →
        ∀ v, alLookup o.anns "cert-manager.io/inject-ca-from" = some v →
          ∃ s, secretFromCertNN cs v = .ok s :=
      fun o ho => hall o (List.mem_cons_of_mem x ho)
    by_cases hxk : isInjectTargetKind x.kind = true
    · cases hxa : alLookup x.anns "cert-manager.io/inject-ca-from" with
      | none => simpa [resolvePass2, hxk, hxa] using ih hrest acc
      | some certNN =>
        obtain ⟨s, hs⟩ := hall x (List.mem_cons_self x rest) hxk certNN hxa
        simpa [resolvePass2, hxk, hxa, hs] using ih hrest (alInsert acc x.serviceName s)
    · have hxk1 : isInjectTargetKind x.kind = false := by simpa using hxk
      simpa [resolvePass2, hxk1] using ih hrest acc

/-- C2: referential integrity in `findWebhookServiceSecretName`.  If some
CRD / webhook configuration carries the injection annotation and its decoded
certificate name has no entry — or an empty entry — in the certificate→secret
map built from the set's Certificates, the resolver takes the error branch and
returns no mapping; conversely, if every carried injection annotation resolves
to a non-empty secret name, the resolver returns a mapping without failing. -/
theorem resolver_integrity_claim :
    (∀ (objs : List Obj) (o : Obj) (certNN certName : String),
      o ∈ objs → isInjectTargetKind o.kind = true →
      alLookup o.anns "cert-manager.io/inject-ca-from" = some certNN →
      (splitOnChar certNN '/')[1]? = some certName →
      (alLookup (buildCertSecretNames objs) certName = none ∨
        alLookup (buildCertSecretNames objs) certName = some "") →
      ∀ m, findWebhookServiceSecretName objs ≠ .ok m) ∧
    (∀ objs : List Obj,
      (∀ o ∈ objs, isInjectTargetKind o.kind = true →
        ∀ certNN, alLookup o.anns "cert-manager.io/inject-ca-from" = some certNN →
          ∃ certName s, (splitOnChar certNN '/')[1]? = some certName ∧
            alLookup (buildCertSecretNames objs) certName = some s ∧ s ≠ "") →
      ∃ m, findWebhookServiceSecretName objs = .ok m) := by
  constructor
  · intro objs o certNN certName hmem hk ha hdec hbad m
    have herr : ∃ e, secretFromCertNN (buildCertSecretNames objs) certNN = .error e := by
      refine ⟨.cantFindSecret certNN, ?_⟩
      rcases hbad with hbad | hbad <;> simp [secretFromCertNN, hdec, hbad]
    exact resolvePass2_not_ok (buildCertSecretNames objs) o certNN hk ha herr objs hmem [] m
  · intro objs hall
    refine resolvePass2_ok (buildCertSecretNames objs) objs ?_ []
    intro o hmem hk certNN ha
    obtain ⟨certName, s, hdec, hfound, hne⟩ := hall o hmem hk certNN ha
    refine ⟨s, ?_⟩
    have hs : (s == "") = false := by simpa using hne
    simp [secretFromCertNN, hdec, hfound, hs]

/-- Witness for C2: a CRD whose annotation references a certificate that no
Certificate object provides makes the resolver fail; an input whose only
annotation resolves succeeds. -/
theorem resolver_integrity_claim_witness :
    (∀ m, findWebhookServiceSecretName
      [{ kind := "CustomResourceDefinition", name := "crd1",
         anns := [("cert-manager.io/inject-ca-from", "ns/missing")], serviceName := "svc1" }]
      ≠ .ok m) ∧
    (∃ m, findWebhookServiceSecretName
      [{ kind := "Certificate", name := "c1", anns := [], secretName := "s1" },
       { kind := "CustomResourceDefinition", name := "crd1",
         anns := [("cert-manager.io/inject-ca-from", "ns/c1")], serviceName := "svc1" }]
      = .ok m) := by
  constructor
  · exact resolver_integrity_claim.1
      [{ kind := "CustomResourceDefinition", name := "crd1",
         anns := [("cert-manager.io/inject-ca-from", "ns/missing")], serviceName := "svc1" }]
      { kind := "CustomResourceDefinition", name := "crd1",
        anns := [("cert-manager.io/inject-ca-from", "ns/missing")], serviceName := "svc1" }
      "ns/missing" "missing" (by decide) (by decide) (by decide) (by decide) (Or.inl (by decide))
  · refine resolver_integrity_claim.2
      [{ kind := "Certificate", name := "c1", anns := [], secretName := "s1" },
       { kind := "CustomResourceDefinition", name := "crd1",
         anns := [("cert-manager.io/inject-ca-from", "ns/c1")], serviceName := "svc1" }] ?_
    intro o hmem hk certNN ha
    rcases List.mem_cons.mp hmem with rfl | hmem1
    · exact absurd hk (by decide)
    · rcases List.mem_cons.mp hmem1 with rfl | hmem2
      · have hval : alLookup [("cert-manager.io/inject-ca-from", "ns/c1")]
            "cert-manager.io/inject-ca-from" = some "ns/c1" := by decide
        have ha2 : alLookup [("cert-manager.io/inject-ca-from", "ns/c1")]
            "cert-manager.io/inject-ca-from" = some certNN := ha
        obtain rfl := Option.some.inj (hval.symm.trans ha2)
        exact ⟨"c1", "s1", by decide, by decide, by decide⟩
      · cases hmem2

/-- C8: resolution of an injection annotation value depends only on the
certificate-name component: two values with the same certificate name but
different (slash-free) namespace components resolve to the same secret (or
both fail) against any certificate→secret map. -/
theorem secretFromCertNN_decode (cs : List (String × String)) (v certName : String)
    (h : (splitOnChar v '/')[1]? = some certName) :
    (secretFromCertNN cs v).toOption
      = (match alLookup cs certName with
         | none => none
         | some s => if s == "" then none else some s) := by
  simp only [secretFromCertNN, h]
  cases alLookup cs certName with
  | none => rfl
  | some s =>
    by_cases hs : (s == "") = true
    · simp [hs, Except.toOption]
    · simp [hs, Except.toOption]

theorem secretFromCertNN_namespace_claim (cs : List (String × String))
    (ns1 ns2 cn : String) (h1 : ('/' : Char) ∉ ns1.data) (h2 : ('/' : Char) ∉ ns2.data) :
    (secretFromCertNN cs (ns1 ++ "/" ++ cn)).toOption
      = (secretFromCertNN cs (ns2 ++ "/" ++ cn)).toOption := by
  have hne : splitOnChar cn '/' ≠ [] := by
    intro h0
    have haux := splitOnCharAux_ne_nil '/' cn.data []
    simp only [splitOnChar, List.map_eq_nil_iff] at h0
    exact haux h0
  cases hsp : splitOnChar cn '/' with
  | nil => exact absurd hsp hne
  | cons a t =>
    have hv1 : (splitOnChar (ns1 ++ "/" ++ cn) '/')[1]? = some a := by
      rw [splitOnChar_append ns1 cn h1, hsp]
      simp
    have hv2 : (splitOnChar (ns2 ++ "/" ++ cn) '/')[1]? = some a := by
      rw [splitOnChar_append ns2 cn h2, hsp]
      simp
    rw [secretFromCertNN_decode cs _ a hv1, secretFromCertNN_decode cs _ a hv2]

/-- Witness for C8 at namespaces "a" and "b" with certificate name "c". -/
theorem secretFromCertNN_namespace_claim_witness :
    (secretFromCertNN [("c", "s")] ("a" ++ "/" ++ "c")).toOption
      = (secretFromCertNN [("c", "s")] ("b" ++ "/" ++ "c")).toOption :=
  secretFromCertNN_namespace_claim [("c", "s")] "a" "b" "c" (by decide) (by decide)

/-- C10: an injection annotation value with no "/" makes the decode step die
with the out-of-range index error, before the designed "can't find secret"
check; values containing a "/" never hit the index error; and lifted to the
resolver, any listed CRD/webhook carrying a slash-free annotation value
prevents a mapping from being returned. -/
theorem secretFromCertNN_panic_claim :
    (∀ (cs : List (String × String)) (v : String), ('/' : Char) ∉ v.data →
      secretFromCertNN cs v = .error (.indexOutOfRange v)) ∧
    (∀ (cs : List (String × String)) (v : String), ('/' : Char) ∈ v.data →
      secretFromCertNN cs v ≠ .error (.indexOutOfRange v)) ∧
    (∀ (objs : List Obj) (o : Obj) (v : String),
      o ∈ objs → isInjectTargetKind o.kind = true →
      alLookup o.anns "cert-manager.io/inject-ca-from" = some v →
      ('/' : Char) ∉ v.data →
      ∀ m, findWebhookServiceSecretName objs ≠ .ok m) := by
  refine ⟨secretFromCertNN_no_slash, secretFromCertNN_slash_no_panic, ?_⟩
  intro objs o v hmem hk ha hns m
  exact resolvePass2_not_ok (buildCertSecretNames objs) o v hk ha
    ⟨.indexOutOfRange v, secretFromCertNN_no_slash _ v hns⟩ objs hmem [] m

/-- Witness for C10 at the slash-free value "abc" and the value "a/b". -/
theorem secretFromCertNN_panic_claim_witness :
    secretFromCertNN [] "abc" = .error (.indexOutOfRange "abc") ∧
    secretFromCertNN [("b", "s")] "a/b" ≠ .error (.indexOutOfRange "a/b") :=
  ⟨secretFromCertNN_panic_claim.1 [] "abc" (by decide),
   secretFromCertNN_panic_claim.2.1 [("b", "s")] "a/b" (by decide)⟩

/-! ### RBAC partition (C6) -/

theorem splitRBACOut_eq (setOS : Obj → Bool → Obj) (objs : List Obj) :
    splitRBACOut setOS objs
      = (objs.filter (fun o => !(isRBACKind o.kind)),
         (objs.filter (fun o => isRBACKind o.kind)).map (fun o => setOS o false)) := by
  induction objs with
  | nil => rfl
  | cons o rest ih =>
    by_cases h : isRBACKind o.kind = true
    · simp [splitRBACOut, h, ih, List.filter_cons]
    · have h1 : isRBACKind o.kind = false := by simpa using h
      simp [splitRBACOut, h1, ih, List.filter_cons]

/-- C6: `splitRBACOut` sends exactly the ClusterRole / Role /
ClusterRoleBinding / RoleBinding / ServiceAccount objects — each passed
through the platform-annotation step with the non-namespaced flag false — to
the rbac stream in input order, and keeps every other object, in order, in
the core stream. -/
theorem splitRBACOut_claim (setOS : Obj → Bool → Obj) (objs : List Obj) :
    (splitRBACOut setOS objs).2
        = (objs.filter (fun o => isRBACKind o.kind)).map (fun o => setOS o false) ∧
    (splitRBACOut setOS objs).1 = objs.filter (fun o => !(isRBACKind o.kind)) ∧
    (∀ o : Obj, isRBACKind o.kind = true ↔
      (o.kind = "ClusterRole" ∨ o.kind = "Role" ∨ o.kind = "ClusterRoleBinding" ∨
        o.kind = "RoleBinding" ∨ o.kind = "ServiceAccount")) := by
  refine ⟨?_, ?_, ?_⟩
  · rw [splitRBACOut_eq]
  · rw [splitRBACOut_eq]
  · intro o
    simp only [isRBACKind, Bool.or_eq_true, beq_iff_eq]
    tauto

/-! ### Component filter (C3) -/

/-- C3: `filterOutIPAM` keeps every CRD, removes every non-CRD object whose
lowercased name contains "ipam", keeps everything else in order, and in
`importProviders` the filter runs only for the provider named "metal3". -/
theorem filterOutIPAM_claim :
    (∀ (objs : List Obj) (o : Obj), o ∈ objs → o.kind = "CustomResourceDefinition" →
      o ∈ filterOutIPAM objs) ∧
    (∀ (objs : List Obj) (o : Obj), o ∈ objs → o.kind ≠ "CustomResourceDefinition" →
      strContains (strToLower o.name) "ipam" = true → o ∉ filterOutIPAM objs) ∧
    (∀ (objs : List Obj) (o : Obj), o ∈ objs →
      strContains (strToLower o.name) "ipam" = false → o ∈ filterOutIPAM objs) ∧
    (∀ objs : List Obj, (filterOutIPAM objs).Sublist objs) ∧
    (∀ (setOS : Obj → Bool → Obj) (pname : String) (objs rewritten : List Obj),
      pname ≠ "metal3" → certManagerToServiceCA objs = .ok rewritten →
      pipelineCore setOS pname objs
        = .ok ((splitRBACOut setOS rewritten).1, (splitRBACOut setOS rewritten).2)) ∧
    (∀ (setOS : Obj → Bool → Obj) (objs rewritten : List Obj),
      certManagerToServiceCA objs = .ok rewritten →
      pipelineCore setOS "metal3" objs
        = .ok (filterOutIPAM (splitRBACOut setOS rewritten).1,
               (splitRBACOut setOS rewritten).2)) := by
  refine ⟨?_, ?_, ?_, ?_, ?_, ?_⟩
  · intro objs o hmem hk
    exact List.mem_filter.mpr ⟨hmem, by simp [keepIPAM, hk]⟩
  · intro objs o hmem hk hipam hcontra
    have hkeep := (List.mem_filter.mp hcontra).2
    simp only [keepIPAM, hipam, Bool.not_true, Bool.or_false, beq_iff_eq] at hkeep
    exact hk hkeep
  · intro objs o hmem hipam
    exact List.mem_filter.mpr ⟨hmem, by simp [keepIPAM, hipam]⟩
  · intro objs
    exact List.filter_sublist objs
  · intro setOS pname objs rewritten hne hok
    simp [pipelineCore, hok, hne]
  · intro setOS objs rewritten hok
    simp [pipelineCore, hok]

/-- Witness for C3 on a concrete stream for a non-metal3 provider and for
metal3: a CRD named "ipam-x" survives, a ConfigMap named "ipam-x" does not. -/
theorem filterOutIPAM_claim_witness :
    ({ kind := "CustomResourceDefinition", name := "ipam-x", anns := [] } : Obj)
      ∈ filterOutIPAM
        [{ kind := "CustomResourceDefinition", name := "ipam-x", anns := [] },
         { kind := "ConfigMap", name := "ipam-x", anns := [] }] ∧
    ({ kind := "ConfigMap", name := "ipam-x", anns := [] } : Obj)
      ∉ filterOutIPAM
        [{ kind := "CustomResourceDefinition", name := "ipam-x", anns := [] },
         { kind := "ConfigMap", name := "ipam-x", anns := [] }] ∧
    pipelineCore (fun o _ => o) "aws" [] = .ok ([], []) :=
  ⟨filterOutIPAM_claim.1 _ _ (by decide) (by decide),
   filterOutIPAM_claim.2.1 _ _ (by decide) (by decide) (by decide),
   filterOutIPAM_claim.2.2.2.2.1 (fun o _ => o) "aws" [] [] (by decide) rfl⟩

/-! ### Image key derivation (C4) -/

/-- C4: `imageToKey` is a pure function of provider type, provider name and
image reference, determined by the bare component name (last "/"-segment,
tag stripped at the first ":"): "kube-rbac-proxy" keeps its fixed key,
"ip-address-manager" gets "<type>-<name>:ip-address-manager", anything else
gets "<type>-<name>:manager"; with the concrete (infrastructure, metal3)
instances from the spec. -/
theorem imageToKey_claim :
    (∀ pt pn img : String, bareImageName img = "kube-rbac-proxy" →
      imageToKey pt pn img = "kube-rbac-proxy") ∧
    (∀ pt pn img : String, bareImageName img = "ip-address-manager" →
      imageToKey pt pn img = providerTypeName pt ++ "-" ++ pn ++ ":" ++ "ip-address-manager") ∧
    (∀ pt pn img : String, bareImageName img ≠ "kube-rbac-proxy" →
      bareImageName img ≠ "ip-address-manager" →
      imageToKey pt pn img = providerTypeName pt ++ "-" ++ pn ++ ":manager") ∧
    providerTypeName "InfrastructureProvider" = "infrastructure" ∧
    imageToKey "InfrastructureProvider" "metal3" "quay.io/foo/kube-rbac-proxy:v1"
      = "kube-rbac-proxy" ∧
    imageToKey "InfrastructureProvider" "metal3" "quay.io/metal3-io/ip-address-manager:v1"
      = "infrastructure-metal3:ip-address-manager" ∧
    imageToKey "InfrastructureProvider" "metal3" "quay.io/foo/other-controller:v2"
      = "infrastructure-metal3:manager" := by
  refine ⟨?_, ?_, ?_, by decide, by decide, by decide, by decide⟩
  · intro pt pn img h
    simp only [imageToKey]
    rw [show (splitOnChar ((splitOnChar img '/').getLastD "") ':').headD ""
      = bareImageName img from rfl, h]
    rw [if_pos (by decide : (("kube-rbac-proxy" : String) == "kube-rbac-proxy") = true)]
  · intro pt pn img h
    simp only [imageToKey]
    rw [show (splitOnChar ((splitOnChar img '/').getLastD "") ':').headD ""
      = bareImageName img from rfl, h]
    rw [if_neg (by decide : ¬ ((("ip-address-manager" : String) == "kube-rbac-proxy") = true)),
      if_pos (by decide : (("ip-address-manager" : String) == "ip-address-manager") = true)]
  · intro pt pn img h1 h2
    simp only [imageToKey]
    rw [show (splitOnChar ((splitOnChar img '/').getLastD "") ':').headD ""
      = bareImageName img from rfl]
    have hb1 : (bareImageName img == "kube-rbac-proxy") = false := by simpa using h1
    have hb2 : (bareImageName img == "ip-address-manager") = false := by simpa using h2
    rw [hb1, hb2]
    rfl

/-- Witness for C4 at concrete images for each of the three key shapes. -/
theorem imageToKey_claim_witness :
    imageToKey "CoreProvider" "cluster-api" "kube-rbac-proxy" = "kube-rbac-proxy" ∧
    imageToKey "InfrastructureProvider" "metal3" "ip-address-manager"
      = providerTypeName "InfrastructureProvider" ++ "-" ++ "metal3" ++ ":" ++ "ip-address-manager" ∧
    imageToKey "InfrastructureProvider" "aws" "gcr.io/x/cluster-api-aws-controller:v9"
      = providerTypeName "InfrastructureProvider" ++ "-" ++ "aws" ++ ":manager" :=
  ⟨imageToKey_claim.1 "CoreProvider" "cluster-api" "kube-rbac-proxy" (by decide),
   imageToKey_claim.2.1 "InfrastructureProvider" "metal3" "ip-address-manager" (by decide),
   imageToKey_claim.2.2.1 "InfrastructureProvider" "aws" "gcr.io/x/cluster-api-aws-controller:v9"
     (by decide) (by decide)⟩

/-! ### Image catalog merge (C5) -/

theorem updateImages_eq_foldl (pt pn : String) (prior : List (String × String))
    (objs : List Obj) :
    updateImages pt pn prior objs
      = (runImages pt pn objs).foldl (fun m p => alInsert m p.1 p.2) prior := by
  induction objs generalizing prior with
  | nil => rfl
  | cons o rest ih =>
    have hstep : updateImages pt pn prior (o :: rest)
        = updateImages pt pn
            (if o.kind == "Deployment" then
              o.images.foldl (fun m1 img => alInsert m1 (imageToKey pt pn img) img) prior
            else prior) rest := rfl
    rw [hstep, ih]
    by_cases h : (o.kind == "Deployment") = true
    · simp only [runImages, h, if_pos, List.foldl_append, List.foldl_map]
    · have hF : (o.kind == "Deployment") = false := by simpa using h
      simp only [runImages, hF, Bool.false_eq_true, if_false, List.nil_append]

theorem alLookup_mem (l : List (String × String)) (k v : String)
    (h : alLookup l k = some v) : (k, v) ∈ l := by
  induction l with
  | nil => cases h
  | cons p rest ih =>
    obtain ⟨k1, v1⟩ := p
    by_cases h1 : (k1 == k) = true
    · have hk : k1 = k := by simpa using h1
      have hv : v1 = v := by
        simpa [alLookup, h1] using h
      subst hk; subst hv
      exact List.mem_cons_self _ _
    · have hF : (k1 == k) = false := by simpa using h1
      have h2 : alLookup rest k = some v := by simpa [alLookup, hF] using h
      exact List.mem_cons_of_mem _ (ih h2)

theorem runImages_key (pt pn : String) (objs : List Obj) :
    ∀ p ∈ runImages pt pn objs, p.1 = imageToKey pt pn p.2 := by
  induction objs with
  | nil => intro p hp; cases hp
  | cons o rest ih =>
    intro p hp
    rcases List.mem_append.mp hp with hp1 | hp2
    · by_cases h : (o.kind == "Deployment") = true
      · simp only [h, if_pos] at hp1
        obtain ⟨img, _, rfl⟩ := List.mem_map.mp hp1
        rfl
      · have hF : (o.kind == "Deployment") = false := by simpa using h
        simp [hF] at hp1
    · exact ih p hp2

/-- C5 counterexample: two containers of one Deployment derive the same key
"infrastructure-metal3:manager", so the catalog cannot map the key to both
images; it holds the second image, not the first, although the key is derived
from the first container's image too. -/
theorem updateImages_claim_counterexample :
    imageToKey "InfrastructureProvider" "metal3" "reg/a:1" = "infrastructure-metal3:manager" ∧
    imageToKey "InfrastructureProvider" "metal3" "reg/b:1" = "infrastructure-metal3:manager" ∧
    alLookup
      (updateImages "InfrastructureProvider" "metal3" []
        [{ kind := "Deployment", name := "d", anns := [], images := ["reg/a:1", "reg/b:1"] }])
      "infrastructure-metal3:manager" = some "reg/b:1" ∧
    ("reg/b:1" : String) ≠ "reg/a:1" := by
  refine ⟨by decide, by decide, by decide, by decide⟩

/-- C5 (amended): in the merged catalog, each key derived in this run maps to
the image of the last container (in iteration order) deriving it; keys not
derived in this run keep their prior value; no prior key is removed; and every
catalog entry is either a prior entry or a (derived key, run image) pair. -/
theorem updateImages_merge_claim (pt pn : String) (prior : List (String × String))
    (objs : List Obj) :
    (∀ k v, alLookup (runImages pt pn objs).reverse k = some v →
      alLookup (updateImages pt pn prior objs) k = some v) ∧
    (∀ k, alLookup (runImages pt pn objs).reverse k = none →
      alLookup (updateImages pt pn prior objs) k = alLookup prior k) ∧
    (∀ k v, alLookup prior k = some v →
      ∃ v1, alLookup (updateImages pt pn prior objs) k = some v1) ∧
    (∀ k v, alLookup (updateImages pt pn prior objs) k = some v →
      alLookup prior k = some v ∨
        ((k, v) ∈ runImages pt pn objs ∧ imageToKey pt pn v = k)) := by
  have hmain : ∀ k, alLookup (updateImages pt pn prior objs) k
      = (alLookup (runImages pt pn objs).reverse k).or (alLookup prior k) := by
    intro k
    rw [updateImages_eq_foldl, alLookup_foldl_alInsert]
  refine ⟨?_, ?_, ?_, ?_⟩
  · intro k v h
    rw [hmain, h]
    rfl
  · intro k h
    rw [hmain, h]
    rfl
  · intro k v h
    rw [hmain]
    cases alLookup (runImages pt pn objs).reverse k with
    | none => exact ⟨v, by rw [h]; rfl⟩
    | some v1 => exact ⟨v1, rfl⟩
  · intro k v h
    rw [hmain] at h
    cases hrun : alLookup (runImages pt pn objs).reverse k with
    | none =>
      rw [hrun] at h
      exact Or.inl h
    | some v1 =>
      rw [hrun] at h
      have hv : v1 = v := by
        have : some v1 = some v := h
        exact Option.some.inj this
      subst hv
      have hp : (k, v1) ∈ runImages pt pn objs :=
        List.mem_reverse.mp (alLookup_mem _ _ _ hrun)
      exact Or.inr ⟨hp, (runImages_key pt pn objs (k, v1) hp).symm⟩

/-- Witness for C5 (amended): the last image wins for the collided key, and a
prior key untouched by the run survives. -/
theorem updateImages_merge_claim_witness :
    alLookup
      (updateImages "InfrastructureProvider" "metal3" [("old", "img0")]
        [{ kind := "Deployment", name := "d", anns := [], images := ["reg/a:1", "reg/b:1"] }])
      "infrastructure-metal3:manager" = some "reg/b:1" ∧
    alLookup
      (updateImages "InfrastructureProvider" "metal3" [("old", "img0")]
        [{ kind := "Deployment", name := "d", anns := [], images := ["reg/a:1", "reg/b:1"] }])
      "old" = alLookup [("old", "img0")] "old" :=
  ⟨(updateImages_merge_claim "InfrastructureProvider" "metal3" [("old", "img0")]
      [{ kind := "Deployment", name := "d", anns := [], images := ["reg/a:1", "reg/b:1"] }]).1
      "infrastructure-metal3:manager" "reg/b:1" (by decide),
   (updateImages_merge_claim "InfrastructureProvider" "metal3" [("old", "img0")]
      [{ kind := "Deployment", name := "d", anns := [], images := ["reg/a:1", "reg/b:1"] }]).2.1
      "old" (by decide)⟩

/-! ### Kind disjointness and rewrite case analysis (C1, C7) -/

theorem isInjectTargetKind_not_drop (k : String) (h : isInjectTargetKind k = true) :
    isDropKind k = false := by
  simp only [isInjectTargetKind, Bool.or_eq_true, beq_iff_eq] at h
  rcases h with (h | h) | h <;> subst h <;> decide

theorem isRBACKind_not_others (k : String) (h : isRBACKind k = true) :
    isInjectTargetKind k = false ∧ (k == "Service") = false ∧ isDropKind k = false := by
  simp only [isRBACKind, Bool.or_eq_true, beq_iff_eq] at h
  rcases h with (((h | h) | h) | h) | h <;> subst h <;> exact ⟨by decide, by decide, by decide⟩

theorem isDropKind_not_others (k : String) (h : isDropKind k = true) :
    isInjectTargetKind k = false ∧ (k == "Service") = false ∧ isRBACKind k = false := by
  simp only [isDropKind, Bool.or_eq_true, beq_iff_eq] at h
  rcases h with (h | h) | h <;> subst h <;> exact ⟨by decide, by decide, by decide⟩

theorem rewriteObj_id (ssn : List (String × String)) (o : Obj)
    (h1 : isInjectTargetKind o.kind = false) (h2 : (o.kind == "Service") = false)
    (h3 : isDropKind o.kind = false) : rewriteObj ssn o = some o := by
  simp [rewriteObj, h1, h2, h3]

theorem rewriteObj_cases (ssn : List (String × String)) (o : Obj) :
    (isDropKind o.kind = true ∧ rewriteObj ssn o = none) ∨
    (isDropKind o.kind = false ∧ ∃ o1, rewriteObj ssn o = some o1 ∧
      o1.kind = o.kind ∧ o1.name = o.name) := by
  by_cases hd : isDropKind o.kind = true
  · obtain ⟨hi, hs, _⟩ := isDropKind_not_others _ hd
    exact Or.inl ⟨hd, by simp [rewriteObj, hi, hs, hd]⟩
  · have hdF : isDropKind o.kind = false := by simpa using hd
    refine Or.inr ⟨hdF, ?_⟩
    by_cases hi : isInjectTargetKind o.kind = true
    · cases ha : alLookup o.anns "cert-manager.io/inject-ca-from" with
      | none => exact ⟨o, by simp [rewriteObj, hi, ha], rfl, rfl⟩
      | some v =>
        exact ⟨{ o with anns := injectSwap o.anns },
          by simp [rewriteObj, injectSwap, hi, ha], rfl, rfl⟩
    · have hiF : isInjectTargetKind o.kind = false := by simpa using hi
      by_cases hs : (o.kind == "Service") = true
      · cases hl : alLookup ssn o.name with
        | none => exact ⟨o, by simp [rewriteObj, hiF, hs, hl], rfl, rfl⟩
        | some v =>
          exact ⟨{ o with anns := addServingSecret o.anns v },
            by simp [rewriteObj, addServingSecret, hiF, hs, hl], rfl, rfl⟩
      · have hsF : (o.kind == "Service") = false := by simpa using hs
        exact ⟨o, rewriteObj_id ssn o hiF hsF hdF, rfl, rfl⟩

/-- C1: given a successful resolution, `certManagerToServiceCA` emits the
per-object rewrite of the stream in which: a CRD / webhook configuration
carrying the injection annotation loses it and gains the cabundle annotation
set to "true" (all its other annotations, kind and name untouched — a 1:1
swap); a Service whose name resolves gains the serving-cert annotation with
the resolved secret and an unresolved Service passes unchanged; no
Certificate / Issuer / Namespace object reaches the output; and objects of
any other kind pass through unmodified. -/
theorem certManagerToServiceCA_claim (objs : List Obj) (ssn : List (String × String))
    (h : findWebhookServiceSecretName objs = .ok ssn) :
    certManagerToServiceCA objs = .ok (objs.filterMap (rewriteObj ssn)) ∧
    (∀ o o1 : Obj, o ∈ objs → rewriteObj ssn o = some o1 →
      o1 ∈ objs.filterMap (rewriteObj ssn)) ∧
    (∀ (o : Obj) (certNN : String), isInjectTargetKind o.kind = true →
      alLookup o.anns "cert-manager.io/inject-ca-from" = some certNN →
      ∃ o1, rewriteObj ssn o = some o1 ∧ o1.kind = o.kind ∧ o1.name = o.name ∧
        alLookup o1.anns "cert-manager.io/inject-ca-from" = none ∧
        alLookup o1.anns "service.beta.openshift.io/inject-cabundle" = some "true" ∧
        (∀ j, j ≠ "cert-manager.io/inject-ca-from" →
          j ≠ "service.beta.openshift.io/inject-cabundle" →
          alLookup o1.anns j = alLookup o.anns j)) ∧
    (∀ o : Obj, isInjectTargetKind o.kind = true →
      alLookup o.anns "cert-manager.io/inject-ca-from" = none →
      rewriteObj ssn o = some o) ∧
    (∀ (o : Obj) (s : String), o.kind = "Service" → alLookup ssn o.name = some s →
      rewriteObj ssn o = some { o with anns := addServingSecret o.anns s }) ∧
    (∀ o : Obj, o.kind = "Service" → alLookup ssn o.name = none →
      rewriteObj ssn o = some o) ∧
    (∀ o1 ∈ objs.filterMap (rewriteObj ssn), isDropKind o1.kind = false) ∧
    (∀ o : Obj, isInjectTargetKind o.kind = false → o.kind ≠ "Service" →
      isDropKind o.kind = false → rewriteObj ssn o = some o) := by
  refine ⟨by simp [certManagerToServiceCA, h], ?_, ?_, ?_, ?_, ?_, ?_, ?_⟩
  · intro o o1 hmem hrw
    exact List.mem_filterMap.mpr ⟨o, hmem, hrw⟩
  · intro o certNN hk ha
    refine ⟨{ o with anns := injectSwap o.anns }, ?_, rfl, rfl, ?_, ?_, ?_⟩
    · simp [rewriteObj, injectSwap, hk, ha]
    · show alLookup (injectSwap o.anns) "cert-manager.io/inject-ca-from" = none
      rw [injectSwap, alLookup_alErase]
      simp
    · show alLookup (injectSwap o.anns) "service.beta.openshift.io/inject-cabundle"
        = some "true"
      rw [injectSwap, alLookup_alErase, if_neg (by decide), alLookup_alInsert, if_pos rfl]
    · intro j hj1 hj2
      show alLookup (injectSwap o.anns) j = alLookup o.anns j
      rw [injectSwap, alLookup_alErase, if_neg (fun hh => hj1 hh.symm),
        alLookup_alInsert, if_neg (fun hh => hj2 hh.symm)]
  · intro o hk ha
    simp [rewriteObj, hk, ha]
  · intro o s hks hl
    have hk1 : isInjectTargetKind o.kind = false := by rw [hks]; decide
    have hk2 : (o.kind == "Service") = true := by rw [hks]; decide
    simp [rewriteObj, addServingSecret, hk1, hk2, hl]
  · intro o hks hl
    have hk1 : isInjectTargetKind o.kind = false := by rw [hks]; decide
    have hk2 : (o.kind == "Service") = true := by rw [hks]; decide
    simp [rewriteObj, hk1, hk2, hl]
  · intro o1 h1
    obtain ⟨o, hmem, hrw⟩ := List.mem_filterMap.mp h1
    rcases rewriteObj_cases ssn o with ⟨_, hnone⟩ | ⟨hdF, o2, hsome, hkind, _⟩
    · rw [hnone] at hrw
      cases hrw
    · rw [hsome] at hrw
      obtain rfl := Option.some.inj hrw
      rw [hkind]
      exact hdF
  · intro o h1 h2 h3
    exact rewriteObj_id ssn o h1 (by simpa using h2) h3

/-- Witness for C1: the empty stream resolves to the empty map, an unmatched
Service is rewritten to itself, and a CRD carrying the annotation gets the
1:1 swap. -/
theorem certManagerToServiceCA_claim_witness :
    certManagerToServiceCA [] = .ok [] ∧
    rewriteObj [] { kind := "Service", name := "svc", anns := [] }
      = some { kind := "Service", name := "svc", anns := [] } ∧
    (∃ o1, rewriteObj [] { kind := "CustomResourceDefinition", name := "crd", anns := [("cert-manager.io/inject-ca-from", "ns/c1")] } = some o1 ∧
      o1.kind = "CustomResourceDefinition" ∧ o1.name = "crd" ∧
      alLookup o1.anns "cert-manager.io/inject-ca-from" = none ∧
      alLookup o1.anns "service.beta.openshift.io/inject-cabundle" = some "true" ∧
      (∀ j, j ≠ "cert-manager.io/inject-ca-from" →
        j ≠ "service.beta.openshift.io/inject-cabundle" →
        alLookup o1.anns j
          = alLookup [("cert-manager.io/inject-ca-from", "ns/c1")] j)) :=
  ⟨(certManagerToServiceCA_claim [] [] rfl).1,
   (certManagerToServiceCA_claim [] [] rfl).2.2.2.2.2.1
     { kind := "Service", name := "svc", anns := [] } rfl (by decide),
   (certManagerToServiceCA_claim [] [] rfl).2.2.1
     { kind := "CustomResourceDefinition", name := "crd", anns := [("cert-manager.io/inject-ca-from", "ns/c1")] } "ns/c1" (by decide) (by decide)⟩

/-! ### Pipeline conservation (C7) -/

theorem route_rbac_eq (pname : String) (o : Obj) :
    (route pname o == Route.rbac) = isRBACKind o.kind := by
  by_cases hd : isDropKind o.kind = true
  · have hr := (isDropKind_not_others _ hd).2.2
    simp [route, hd, hr]
  · have hdF : isDropKind o.kind = false := by simpa using hd
    by_cases hr : isRBACKind o.kind = true
    · simp [route, hdF, hr]
    · have hrF : isRBACKind o.kind = false := by simpa using hr
      by_cases hm : ((pname == "metal3") && !(keepIPAM o)) = true
      · simp [route, hdF, hrF, hm]
      · have hmF : ((pname == "metal3") && !(keepIPAM o)) = false := by simpa using hm
        simp [route, hdF, hrF, hmF]

theorem filterMap_rewrite_rbac (ssn : List (String × String)) (objs : List Obj) :
    (objs.filterMap (rewriteObj ssn)).filter (fun o => isRBACKind o.kind)
      = objs.filter (fun o => isRBACKind o.kind) := by
  induction objs with
  | nil => rfl
  | cons o rest ih =>
    rcases rewriteObj_cases ssn o with ⟨hd, hnone⟩ | ⟨hdF, o1, hsome, hkind, _⟩
    · have hr : isRBACKind o.kind = false := (isDropKind_not_others _ hd).2.2
      simp [List.filterMap_cons, hnone, List.filter_cons, hr, ih]
    · by_cases hr : isRBACKind o.kind = true
      · obtain ⟨hi, hs, _⟩ := isRBACKind_not_others _ hr
        have hid : rewriteObj ssn o = some o := rewriteObj_id ssn o hi hs hdF
        simp [List.filterMap_cons, hid, List.filter_cons, hr, ih]
      · have hrF : isRBACKind o.kind = false := by simpa using hr
        have hr1 : isRBACKind o1.kind = false := by rw [hkind]; exact hrF
        simp [List.filterMap_cons, hsome, List.filter_cons, hr1, hrF, ih]

theorem core_stream_eq_other (ssn : List (String × String)) (pname : String)
    (objs : List Obj) (hm : (pname == "metal3") = false) :
    (objs.filterMap (rewriteObj ssn)).filter (fun o => !(isRBACKind o.kind))
      = (objs.filter (fun o => route pname o == Route.core)).map (coreTransform ssn) := by
  induction objs with
  | nil => rfl
  | cons o rest ih =>
    rcases rewriteObj_cases ssn o with ⟨hd, hnone⟩ | ⟨hdF, o1, hsome, hkind, _⟩
    · have hroute : (route pname o == Route.core) = false := by simp [route, hd]
      simp [List.filterMap_cons, hnone, List.filter_cons, hroute, ih]
    · by_cases hr : isRBACKind o.kind = true
      · obtain ⟨hi, hs, _⟩ := isRBACKind_not_others _ hr
        have hid : rewriteObj ssn o = some o := rewriteObj_id ssn o hi hs hdF
        have hroute : (route pname o == Route.core) = false := by simp [route, hdF, hr]
        simp [List.filterMap_cons, hid, List.filter_cons, hr, hroute, ih]
      · have hrF : isRBACKind o.kind = false := by simpa using hr
        have hr1 : isRBACKind o1.kind = false := by rw [hkind]; exact hrF
        have hroute : (route pname o == Route.core) = true := by
          simp [route, hdF, hrF, hm]
        have hct : coreTransform ssn o = o1 := by simp [coreTransform, hsome]
        simp [List.filterMap_cons, hsome, List.filter_cons, hr1, hrF, hroute, hct, ih]

theorem core_stream_eq_metal3 (ssn : List (String × String)) (objs : List Obj) :
    filterOutIPAM
        ((objs.filterMap (rewriteObj ssn)).filter (fun o => !(isRBACKind o.kind)))
      = (objs.filter (fun o => route "metal3" o == Route.core)).map (coreTransform ssn) := by
  induction objs with
  | nil => rfl
  | cons o rest ih =>
    simp only [filterOutIPAM] at ih ⊢
    rcases rewriteObj_cases ssn o with ⟨hd, hnone⟩ | ⟨hdF, o1, hsome, hkind, hname⟩
    · have hroute : (route "metal3" o == Route.core) = false := by simp [route, hd]
      simp [List.filterMap_cons, hnone, List.filter_cons, hroute, ih]
    · by_cases hr : isRBACKind o.kind = true
      · obtain ⟨hi, hs, _⟩ := isRBACKind_not_others _ hr
        have hid : rewriteObj ssn o = some o := rewriteObj_id ssn o hi hs hdF
        have hroute : (route "metal3" o == Route.core) = false := by
          simp [route, hdF, hr]
        simp [List.filterMap_cons, hid, List.filter_cons, hr, hroute, ih]
      · have hrF : isRBACKind o.kind = false := by simpa using hr
        have hr1 : isRBACKind o1.kind = false := by rw [hkind]; exact hrF
        have hkeq : keepIPAM o1 = keepIPAM o := by simp [keepIPAM, hkind, hname]
        by_cases hk : keepIPAM o = true
        · have hk1 : keepIPAM o1 = true := by rw [hkeq]; exact hk
          have hroute : (route "metal3" o == Route.core) = true := by
            simp [route, hdF, hrF, hk]
          have hct : coreTransform ssn o = o1 := by simp [coreTransform, hsome]
          simp [List.filterMap_cons, hsome, List.filter_cons, hr1, hrF, filterOutIPAM,
            hk1, hroute, hct, ih, -List.filter_filter]
        · have hkF : keepIPAM o = false := by simpa using hk
          have hk1F : keepIPAM o1 = false := by rw [hkeq]; exact hkF
          have hroute : (route "metal3" o == Route.core) = false := by
            simp [route, hdF, hrF, hkF]
          simp [List.filterMap_cons, hsome, List.filter_cons, hr1, hrF, filterOutIPAM,
            hk1F, hroute, ih, -List.filter_filter]

theorem route_count (pname : String) (objs : List Obj) :
    (objs.filter (fun o => route pname o == Route.core)).length
      + (objs.filter (fun o => route pname o == Route.rbac)).length
      + (objs.filter (fun o => route pname o == Route.dropped)).length = objs.length := by
  induction objs with
  | nil => rfl
  | cons o rest ih =>
    cases hro : route pname o <;> simp [List.filter_cons, hro] <;> omega

theorem route_dropped_char (pname : String) (o : Obj) (h : route pname o = Route.dropped) :
    isDropKind o.kind = true ∨
      (pname = "metal3" ∧ o.kind ≠ "CustomResourceDefinition" ∧
        strContains (strToLower o.name) "ipam" = true) := by
  by_cases hd : isDropKind o.kind = true
  · exact Or.inl hd
  · have hdF : isDropKind o.kind = false := by simpa using hd
    by_cases hr : isRBACKind o.kind = true
    · rw [route] at h
      simp [hdF, hr] at h
    · have hrF : isRBACKind o.kind = false := by simpa using hr
      by_cases hm : ((pname == "metal3") && !(keepIPAM o)) = true
      · obtain ⟨hm1, hm2⟩ := Bool.and_eq_true_iff.mp hm
        have hp : pname = "metal3" := by simpa using hm1
        have hkF : keepIPAM o = false := by simpa using hm2
        have hparts : ¬o.kind = "CustomResourceDefinition" ∧
            strContains (strToLower o.name) "ipam" = true := by
          simpa [keepIPAM] using hkF
        exact Or.inr ⟨hp, hparts.1, hparts.2⟩
      · have hmF : ((pname == "metal3") && !(keepIPAM o)) = false := by simpa using hm
        rw [route] at h
        simp [hdF, hrF, hmF] at h

/-- C7: conservation.  On success, the pipeline routes every input object to
exactly one of the core stream (carrying its rewrite image), the rbac stream
(carrying its annotated image), or the dropped set; the three routed counts
add up to the input length; and an object is dropped only because it is a
Certificate / Issuer / Namespace, or (for metal3 only) a non-CRD whose
lowercased name contains "ipam". -/
theorem pipeline_conservation_claim (setOS : Obj → Bool → Obj) (pname : String)
    (objs core rbac : List Obj) (ssn : List (String × String))
    (hssn : findWebhookServiceSecretName objs = .ok ssn)
    (h : pipelineCore setOS pname objs = .ok (core, rbac)) :
    core = (objs.filter (fun o => route pname o == Route.core)).map (coreTransform ssn) ∧
    rbac = (objs.filter (fun o => route pname o == Route.rbac)).map (fun o => setOS o false) ∧
    core.length + rbac.length
        + (objs.filter (fun o => route pname o == Route.dropped)).length = objs.length ∧
    (∀ o ∈ objs, route pname o = Route.dropped →
      isDropKind o.kind = true ∨
        (pname = "metal3" ∧ o.kind ≠ "CustomResourceDefinition" ∧
          strContains (strToLower o.name) "ipam" = true)) := by
  have hca : certManagerToServiceCA objs = .ok (objs.filterMap (rewriteObj ssn)) := by
    simp [certManagerToServiceCA, hssn]
  rw [pipelineCore, hca] at h
  have hpair := Except.ok.inj h
  have hcore : core = (if pname == "metal3"
      then filterOutIPAM (splitRBACOut setOS (objs.filterMap (rewriteObj ssn))).1
      else (splitRBACOut setOS (objs.filterMap (rewriteObj ssn))).1) :=
    (congrArg Prod.fst hpair).symm
  have hrbac : rbac = (splitRBACOut setOS (objs.filterMap (rewriteObj ssn))).2 :=
    (congrArg Prod.snd hpair).symm
  have hcoreEq : core
      = (objs.filter (fun o => route pname o == Route.core)).map (coreTransform ssn) := by
    rw [hcore, splitRBACOut_eq]
    by_cases hm : (pname == "metal3") = true
    · have hp : pname = "metal3" := by simpa using hm
      subst hp
      rw [if_pos hm]
      exact core_stream_eq_metal3 ssn objs
    · have hmF : (pname == "metal3") = false := by simpa using hm
      rw [if_neg (by simp [hmF])]
      exact core_stream_eq_other ssn pname objs hmF
  have hrbacEq : rbac
      = (objs.filter (fun o => route pname o == Route.rbac)).map (fun o => setOS o false) := by
    rw [hrbac, splitRBACOut_eq]
    have hfun : (fun o : Obj => route pname o == Route.rbac)
        = (fun o : Obj => isRBACKind o.kind) := funext (route_rbac_eq pname)
    rw [hfun, filterMap_rewrite_rbac]
  refine ⟨hcoreEq, hrbacEq, ?_, ?_⟩
  · rw [hcoreEq, hrbacEq, List.length_map, List.length_map]
    exact route_count pname objs
  · intro o _ hro
    exact route_dropped_char pname o hro

/-- Witness for C7: a one-object stream for a non-metal3 provider is routed
entirely to the core stream. -/
theorem pipeline_conservation_claim_witness :
    ([{ kind := "ConfigMap", name := "x", anns := [] }] : List Obj)
      = (([{ kind := "ConfigMap", name := "x", anns := [] }] : List Obj).filter
          (fun o => route "aws" o == Route.core)).map (coreTransform []) ∧
    ([] : List Obj)
      = (([{ kind := "ConfigMap", name := "x", anns := [] }] : List Obj).filter
          (fun o => route "aws" o == Route.rbac)).map (fun o => o) :=
  ⟨(pipeline_conservation_claim (fun o _ => o) "aws"
      [{ kind := "ConfigMap", name := "x", anns := [] }]
      [{ kind := "ConfigMap", name := "x", anns := [] }] [] [] rfl rfl).1,
   (pipeline_conservation_claim (fun o _ => o) "aws"
      [{ kind := "ConfigMap", name := "x", anns := [] }]
      [{ kind := "ConfigMap", name := "x", anns := [] }] [] [] rfl rfl).2.1⟩

end ImportAssets
